import Mathlib

/-!
Verification of the worker-thread-pool subsystem of `src/webserver_example.rs`.

The Rust source is shallowly embedded as follows.

* A `Job` (`Box<dyn FnOnce() + Send>`) is opaque to the pool; jobs are
  identified here by the natural number giving their submission index, and
  where a job's behaviour matters (claim about panics) it is supplied as a
  function `Nat → Except Unit Unit` (`Except.error` models a panic).
* `Message` mirrors the source `enum Message { NewJob(Job), Terminate }`.
* The mpsc channel is a FIFO queue of messages; its consumer side is shared
  by the workers behind a mutex, so dequeues are globally serialized and the
  global consumption order is the send order.
* `thread::JoinHandle<()>` is abstracted to the spawning worker's id; the
  `Option<JoinHandle<()>>` slot is an `Option Nat`.
* Machine integers (`usize`) are `Nat`; the relevant code performs no
  arithmetic that could overflow.
* Fallible operations (`assert!`, `send(...).unwrap()`, `lock().unwrap()`)
  are `Except String _` values whose error branch is the panic.
-/

namespace WebserverExample

/-- Tagged union sent through the dispatch channel, from
`enum Message { NewJob(Job), Terminate }` (source lines 21–24).  The boxed
closure payload of `NewJob` is abstracted to the job's submission index. -/
inductive Message where
  | NewJob (job : Nat)
  | Terminate
  deriving DecidableEq

/-- Mirror of `struct Worker { id: usize, thread: Option<thread::JoinHandle<()>> }`
(source lines 99–102); the join handle is abstracted to a `Nat`. -/
structure Worker where
  id : Nat
  thread : Option Nat
  deriving DecidableEq

/-- Mirror of `Worker::new` (source lines 107–146): it spawns one thread
(whose loop is modelled separately by `workerBody` / `workerRun` /
`PoolStep`) and stores the resulting handle in an initially populated
`Option` slot (`thread: Some(thread)`, line 144).  The handle is abstracted
to the worker's id, one spawn per worker. -/
def Worker.new (id : Nat) : Worker :=
  { id := id, thread := some id }

/-- Mirror of `struct ThreadPool { workers: Vec<Worker>, sender: ... }`
(source lines 13–16); the sender half of the channel is modelled by
`Channel` below. -/
structure ThreadPool where
  workers : List Worker
  deriving DecidableEq

/-- Mirror of `ThreadPool::new` (source lines 28–51): `assert!(size > 0)` is
evaluated first — on `size = 0` the function panics (the `Except.error`
branch) before the channel or any worker is created; otherwise it creates
workers with ids `0..size` via `for id in 0..size { workers.push(Worker::new(id, ...)) }`. -/
def ThreadPool.new (size : Nat) : Except String ThreadPool :=
  if 0 < size then
    Except.ok { workers := (List.range size).map Worker.new }
  else
    Except.error "assertion failed: size > 0"

/-- Workers (threads) in existence after a call to `ThreadPool::new`: none
when the construction panicked. -/
def spawnedWorkers : Except String ThreadPool → List Worker
  | Except.error _ => []
  | Except.ok p => p.workers

/-- State of the mpsc channel: the FIFO queue of not-yet-received messages,
and whether the consumer side is still alive (the workers jointly hold the
receiver through an `Arc`, so it stays alive while any worker exists). -/
structure Channel where
  queue : List Message
  receiverAlive : Bool
  deriving DecidableEq

/-- Mirror of `mpsc::Sender::send`: enqueues at the tail, failing exactly
when the consumer side has been dropped. -/
def Channel.send (ch : Channel) (m : Message) : Except String Channel :=
  if ch.receiverAlive then
    Except.ok { queue := ch.queue ++ [m], receiverAlive := ch.receiverAlive }
  else
    Except.error "SendError"

/-- Mirror of `ThreadPool::execute` (source lines 56–64): box the closure,
wrap it as `Message::NewJob`, send it, and `unwrap` the result (the
`Except.error` branch is the panic of `unwrap`).  It takes `&self`, so the
pool itself is returned unchanged, and the function has no return value
(`Unit` payload is implicit in returning the unchanged pool and channel). -/
def ThreadPool.execute (p : ThreadPool) (job : Nat) (ch : Channel) :
    Except String (ThreadPool × Channel) :=
  (ch.send (Message.NewJob job)).map (fun c => (p, c))

/-- Observable events of the pool destructor (`impl Drop for ThreadPool`,
source lines 68–95): sending a `Terminate` message, and joining a worker's
thread through its taken handle. -/
inductive DropEvent where
  | sendTerminate
  | joinThread (handle : Nat)
  deriving DecidableEq

/-- Mirror of the destructor's first loop (source lines 77–79): it sends one
`Message::Terminate` per worker onto the channel, `n` being the length of
`self.workers`; each send is `unwrap`ped. -/
def sendTerminates : Channel → Nat → Except String Channel
  | ch, 0 => Except.ok ch
  | ch, n + 1 => (ch.send Message.Terminate).bind (fun c => sendTerminates c n)

/-- Mirror of the destructor's second loop (source lines 84–94): for each
worker in order, `worker.thread.take()` empties the `Option` slot, and
`if let Some(thread) = ...` joins exactly the handles that were populated,
skipping slots that are already `None`.  Returns the emitted join events and
the workers with their slots taken. -/
def joinPhase : List Worker → List DropEvent × List Worker
  | [] => ([], [])
  | w :: ws =>
      let rest := joinPhase ws
      match w.thread with
      | some h =>
          (DropEvent.joinThread h :: rest.1, { w with thread := none } :: rest.2)
      | none => (rest.1, w :: rest.2)

/-- Event trace of `impl Drop for ThreadPool` (source lines 68–95): the first
loop emits one `sendTerminate` per worker, and only then does the second
loop emit the joins. -/
def dropEvents (p : ThreadPool) : List DropEvent :=
  List.replicate p.workers.length DropEvent.sendTerminate ++ (joinPhase p.workers).1

/-- Pure model of the worker thread's loop (source lines 110–130) over the
sequence of messages that this worker dequeues, in order: each iteration
dequeues one message; `NewJob` runs the job and continues; `Terminate`
breaks out.  Returns the jobs run, in order, and whether the loop exited
via `Terminate` (rather than still blocking on an empty list). -/
def workerBody : List Message → List Nat × Bool
  | [] => ([], false)
  | Message.NewJob j :: rest =>
      let r := workerBody rest
      (j :: r.1, r.2)
  | Message.Terminate :: _ => ([], true)

/-- Messages actually consumed by the worker loop out of the sequence offered
to it: everything up to and including the first `Terminate`. -/
def consumedMessages : List Message → List Message
  | [] => []
  | Message.NewJob j :: rest => Message.NewJob j :: consumedMessages rest
  | Message.Terminate :: _ => [Message.Terminate]

/-- Worker loop refined with job behaviour (source lines 110–130 with
`job()` at line 123 allowed to panic): `beh j = Except.error ()` means job
`j` panics when invoked.  The loop contains no catch, so a panic aborts the
loop and propagates out of the thread function (`Except.error` result). -/
def workerRun (beh : Nat → Except Unit Unit) :
    List Message → Except Unit (List Nat × Bool)
  | [] => Except.ok ([], false)
  | Message.NewJob j :: rest =>
      match beh j with
      | Except.error e => Except.error e
      | Except.ok _ => (workerRun beh rest).map (fun r => (j :: r.1, r.2))
  | Message.Terminate :: _ => Except.ok ([], true)

/-- Micro-events of one iteration of the worker loop, reflecting the lexical
structure of source line 115 (`let message = receiver.lock().unwrap().recv().unwrap();`
— the `MutexGuard` returned by `lock` is dropped at the end of that
statement) and lines 120–129 (the `match` that runs the job or breaks). -/
inductive IterEvent where
  | lockAcquire
  | recvMessage
  | lockRelease
  | runJob (j : Nat)
  | breakLoop
  deriving DecidableEq

/-- Event trace of one worker-loop iteration that dequeued message `m`: the
lock is acquired, the message received, the lock released (end of the `let`
statement at source line 115), and only then is the message acted upon. -/
def iterEvents : Message → List IterEvent
  | Message.NewJob j =>
      [IterEvent.lockAcquire, IterEvent.recvMessage, IterEvent.lockRelease,
       IterEvent.runJob j]
  | Message.Terminate =>
      [IterEvent.lockAcquire, IterEvent.recvMessage, IterEvent.lockRelease,
       IterEvent.breakLoop]

/-- Whether the mutex on the channel's consumer handle is held when the event
at position `i` of the trace `es` executes: acquisitions so far strictly
exceed releases so far. -/
def lockHeldBefore (es : List IterEvent) (i : Nat) : Bool :=
  (es.take i).count IterEvent.lockRelease < (es.take i).count IterEvent.lockAcquire

/-- Mirror of `receiver.lock().unwrap()` (source line 115): acquiring a
poisoned mutex fails, and the `unwrap` turns that into a panic. -/
def mutexLock (poisoned : Bool) : Except String Unit :=
  if poisoned then Except.error "PoisonError" else Except.ok ()

/-- Phase of one worker thread as observable from outside: blocked on the
channel (`ready`, about to execute source line 115), currently invoking job
`j` with the lock already released (`busy`, source line 123), or returned
from its thread function after dequeuing `Terminate` (`done`, source
line 127). -/
inductive Phase where
  | ready
  | busy (j : Nat)
  | done
  deriving DecidableEq

/-- Global state of pool execution: the channel's FIFO queue, the phase of
each worker (index = worker id), and the jobs whose invocation has
completed, in completion order. -/
structure PoolState where
  queue : List Message
  phases : List Phase
  executed : List Nat
  deriving DecidableEq

/-- Interleaving semantics of the worker loops (source lines 110–130) over
the shared channel.  Because every dequeue happens under the shared mutex
(`receiver.lock().unwrap().recv()`, line 115), dequeues are atomic and
globally consume the FIFO queue in order; because the lock is released
before the `match`, a `busy` worker blocks nobody.  A `ready` worker may
atomically dequeue the head (becoming `busy j` on `NewJob j`, or `done` on
`Terminate`); a `busy` worker may finish its job, appending it to
`executed` and looping back to `ready`.  `done` workers never step again. -/
inductive PoolStep : PoolState → PoolState → Prop where
  | dequeueJob (s : PoolState) (i j : Nat) (rest : List Message) :
      s.phases[i]? = some Phase.ready →
      s.queue = Message.NewJob j :: rest →
      PoolStep s ⟨rest, s.phases.set i (Phase.busy j), s.executed⟩
  | finishJob (s : PoolState) (i j : Nat) :
      s.phases[i]? = some (Phase.busy j) →
      PoolStep s ⟨s.queue, s.phases.set i Phase.ready, s.executed ++ [j]⟩
  | dequeueTerm (s : PoolState) (i : Nat) (rest : List Message) :
      s.phases[i]? = some Phase.ready →
      s.queue = Message.Terminate :: rest →
      PoolStep s ⟨rest, s.phases.set i Phase.done, s.executed⟩

/-- Reflexive-transitive closure of `PoolStep`. -/
def Reaches : PoolState → PoolState → Prop :=
  Relation.ReflTransGen PoolStep

/-- Global state at the start of shutdown for a pool of `numWorkers` workers
that received `numJobs` `execute` calls: the FIFO queue holds the `NewJob`
messages in submission order followed by the `numWorkers` `Terminate`
messages that the destructor's first loop enqueued (see
`submitThenTerminate_queue` below, which derives this queue from
`ThreadPool.execute` and `sendTerminates`); every worker is blocked on the
channel and nothing has run yet (the worst case — any job already executed
moves the state forward along `Reaches`). -/
def startState (numWorkers numJobs : Nat) : PoolState :=
  { queue := (List.range numJobs).map Message.NewJob
      ++ List.replicate numWorkers Message.Terminate
  , phases := List.replicate numWorkers Phase.ready
  , executed := [] }

/-- Submission of jobs `0..m` via `ThreadPool.execute`, in order. -/
def submitJobs (p : ThreadPool) (ch : Channel) : Nat → Except String Channel
  | 0 => Except.ok ch
  | m + 1 =>
      (submitJobs p ch m).bind (fun c =>
        (p.execute m c).map (fun r => r.2))

/-- Jobs extracted from the phases of the workers that are currently `busy`. -/
def phaseJobs : Phase → List Nat
  | Phase.busy j => [j]
  | _ => []

/-- All jobs currently being invoked by some worker. -/
def busyJobs (ps : List Phase) : List Nat :=
  ps.flatMap phaseJobs

/-- Test for the `done` phase. -/
def isDone : Phase → Bool
  | Phase.done => true
  | _ => false

/-- Number of workers whose thread function has returned. -/
def doneCount (ps : List Phase) : Nat :=
  ps.countP isDone

/-- Request-line prefix tested by `handle_connection` (source line 158):
the bytes of `b"GET / HTTP/1.1\r\n"`. -/
def getRequestLine : List Nat :=
  "GET / HTTP/1.1\r\n".toList.map Char.toNat

/-- Mirror of `<[u8]>::starts_with` used at source line 160. -/
def bytesStartWith (l p : List Nat) : Bool :=
  decide (l.take p.length = p)

/-- Mirror of `handle_connection` (source lines 150–179).  `bytesRead` is
what `stream.read` wrote into the 1024-byte zero-initialised buffer (the
read returns at most 1024 bytes); the prefix test runs over the whole
buffer including the untouched zero padding, exactly as
`buffer.starts_with(get)` does.  The bodies of `hello.html` and `404.html`
are parameters (the files are not part of the repository); `String.length`
stands for Rust's byte length `contents.len()`, which agrees on ASCII
bodies. -/
def handle_connection (bytesRead : List Nat) (helloHtml notFoundHtml : String) :
    String :=
  let buffer := bytesRead ++ List.replicate (1024 - bytesRead.length) 0
  let chosen :=
    if bytesStartWith buffer getRequestLine then
      ("HTTP/1.1 200 OK", helloHtml)
    else
      ("HTTP/1.1 404 NOT FOUND", notFoundHtml)
  chosen.1 ++ "\r\nContent-Length: " ++ toString chosen.2.length
    ++ "\r\n\r\n" ++ chosen.2

/-- Invariant of pool execution started from `startState N M`: some prefix
`0, ..., k-1` of the jobs has been dequeued, the queue holds the rest of the
jobs followed by one `Terminate` per worker not yet terminated, a worker
terminates only after every job has been dequeued (`Terminate` messages sit
behind every `NewJob` in the FIFO), and the dequeued jobs are exactly the
finished ones plus those currently being invoked. -/
def PoolInv (N M : Nat) (s : PoolState) : Prop :=
  ∃ k, k ≤ M ∧
    s.queue = ((List.range M).drop k).map Message.NewJob
        ++ List.replicate (N - doneCount s.phases) Message.Terminate ∧
    s.phases.length = N ∧
    doneCount s.phases ≤ N ∧
    (doneCount s.phases ≠ 0 → k = M) ∧
    (s.executed ++ busyJobs s.phases).Perm (List.range k)

/-! ## Helper lemmas -/

lemma submitJobs_queue (p : ThreadPool) (m : Nat) :
    submitJobs p (Channel.mk [] true) m
      = Except.ok (Channel.mk ((List.range m).map Message.NewJob) true) := by
  induction m with
  | zero => rfl
  | succ m ih =>
      rw [submitJobs, ih]
      simp only [Except.bind, ThreadPool.execute, Channel.send, if_pos,
        Except.map, List.range_succ, List.map_append]
      rfl

lemma sendTerminates_queue (n : Nat) : ∀ q : List Message,
    sendTerminates (Channel.mk q true) n
      = Except.ok (Channel.mk (q ++ List.replicate n Message.Terminate) true) := by
  induction n with
  | zero =>
      intro q
      simp [sendTerminates]
  | succ n ih =>
      intro q
      rw [sendTerminates, Channel.send]
      simp only [if_pos, Except.bind, ih]
      rw [List.append_assoc, List.replicate_succ]
      rfl

lemma submitThenTerminate_queue (p : ThreadPool) (N M : Nat) :
    (submitJobs p (Channel.mk [] true) M).bind (fun c => sendTerminates c N)
      = Except.ok (Channel.mk (startState N M).queue true) := by
  rw [submitJobs_queue, Except.bind, sendTerminates_queue]
  rfl


lemma joinPhase_fst_isJoin (ws : List Worker) :
    ∀ e ∈ (joinPhase ws).1, ∃ h, e = DropEvent.joinThread h := by
  induction ws with
  | nil => simp [joinPhase]
  | cons w ws ih =>
      intro e he
      cases hw : w.thread with
      | some h =>
          simp only [joinPhase, hw, List.mem_cons] at he
          rcases he with rfl | he
          · exact ⟨h, rfl⟩
          · exact ih e he
      | none =>
          simp only [joinPhase, hw] at he
          exact ih e he

lemma sendTerminate_not_mem_joinPhase (ws : List Worker) :
    DropEvent.sendTerminate ∉ (joinPhase ws).1 := by
  intro hmem
  rcases joinPhase_fst_isJoin ws _ hmem with ⟨h, hh⟩
  exact DropEvent.noConfusion hh

lemma joinPhase_snd_none (ws : List Worker) :
    ∀ w ∈ (joinPhase ws).2, w.thread = none := by
  induction ws with
  | nil => simp [joinPhase]
  | cons w ws ih =>
      intro v hv
      cases hw : w.thread with
      | some h =>
          simp only [joinPhase, hw, List.mem_cons] at hv
          rcases hv with rfl | hv
          · rfl
          · exact ih v hv
      | none =>
          simp only [joinPhase, hw, List.mem_cons] at hv
          rcases hv with rfl | hv
          · exact hw
          · exact ih v hv

lemma joinPhase_fst_eq_filterMap (ws : List Worker) :
    (joinPhase ws).1 = ws.filterMap (fun w => w.thread.map DropEvent.joinThread) := by
  induction ws with
  | nil => simp [joinPhase]
  | cons w ws ih =>
      cases hw : w.thread with
      | some h => simp [joinPhase, hw, ih]
      | none => simp [joinPhase, hw, ih]

lemma take_replicate_append {α : Type} (a : α) (n : Nat) (l : List α) :
    (List.replicate n a ++ l).take n = List.replicate n a := by
  induction n with
  | zero => simp
  | succ n ih => simp [List.replicate_succ, ih]

lemma drop_replicate_append {α : Type} (a : α) (n : Nat) (l : List α) :
    (List.replicate n a ++ l).drop n = l := by
  induction n with
  | zero => simp
  | succ n ih => simp [List.replicate_succ, ih]

lemma workerBody_terminate_count (ms : List Message) :
    (consumedMessages ms).count Message.Terminate
      = (if (workerBody ms).2 then 1 else 0) := by
  induction ms with
  | nil => simp [workerBody, consumedMessages]
  | cons m rest ih =>
      cases m with
      | NewJob j =>
          simpa [workerBody, consumedMessages,
            List.count_cons_of_ne (by simp : Message.Terminate ≠ Message.NewJob j)]
            using ih
      | Terminate => simp [workerBody, consumedMessages]

/-! ## Claim theorems: construction, submission, worker dispatch, shutdown -/

/-- C3. `ThreadPool::new(size)` panics exactly when `size = 0`; the panic
happens before any worker thread is created; for every positive size it
returns a pool with `size` (hence more than zero) workers. -/
theorem c3_construction_guard (size : Nat) :
    (ThreadPool.new size = Except.error "assertion failed: size > 0" ↔ size = 0) ∧
    (size = 0 → spawnedWorkers (ThreadPool.new size) = []) ∧
    (∀ p, ThreadPool.new size = Except.ok p →
      p.workers.length = size ∧ 0 < p.workers.length) ∧
    (0 < size → ∃ p, ThreadPool.new size = Except.ok p) := by
  by_cases h0 : 0 < size
  · refine ⟨?_, ?_, ?_, ?_⟩
    · simp [ThreadPool.new, h0]
      omega
    · intro h
      omega
    · intro p hp
      simp only [ThreadPool.new, if_pos h0, Except.ok.injEq] at hp
      subst hp
      simpa using h0
    · intro _
      refine ⟨{ workers := (List.range size).map Worker.new }, ?_⟩
      simp [ThreadPool.new, h0]
  · have hz : size = 0 := by omega
    subst hz
    refine ⟨?_, ?_, ?_, ?_⟩
    · simp [ThreadPool.new]
    · intro _
      simp [ThreadPool.new, spawnedWorkers]
    · intro p hp
      simp [ThreadPool.new] at hp
    · intro h
      omega

/-- Witness for C3 at the concrete failing size `0`. -/
theorem c3_construction_guard_witness :
    ThreadPool.new 0 = Except.error "assertion failed: size > 0" ∧
    spawnedWorkers (ThreadPool.new 0) = [] :=
  ⟨(c3_construction_guard 0).1.mpr rfl, (c3_construction_guard 0).2.1 rfl⟩

/-- C5. `execute(f)` wraps the job as `NewJob` and sends that single message
on the dispatch channel, returning no value and leaving the pool untouched;
while the workers keep the consumer side of the channel alive, the
send-failure branch (the `unwrap` panic) is unreachable and exactly one
message — the wrapped job — is appended to the queue. -/
theorem c5_execute_sends_newjob (p : ThreadPool) (ch : Channel) (job : Nat)
    (halive : ch.receiverAlive = true) :
    ThreadPool.execute p job ch =
      Except.ok (p, { queue := ch.queue ++ [Message.NewJob job],
                      receiverAlive := true }) := by
  simp [ThreadPool.execute, Channel.send, halive, Except.map]

/-- Witness for C5 on a concrete live channel. -/
theorem c5_execute_sends_newjob_witness :
    ThreadPool.execute { workers := [Worker.new 0] } 7
        { queue := [], receiverAlive := true } =
      Except.ok ({ workers := [Worker.new 0] },
        { queue := [Message.NewJob 7], receiverAlive := true }) :=
  c5_execute_sends_newjob { workers := [Worker.new 0] }
    { queue := [], receiverAlive := true } 7 rfl

/-- C6. A pool constructed with `N ≥ 1` has exactly `N` workers whose ids are
exactly `0, …, N-1`, pairwise distinct; submitting jobs never adds or
removes a worker. -/
theorem c6_fixed_worker_set (N : Nat) (p : ThreadPool) (hN : 1 ≤ N)
    (hp : ThreadPool.new N = Except.ok p) :
    p.workers.map Worker.id = List.range N ∧
    (p.workers.map Worker.id).Nodup ∧
    p.workers.length = N ∧
    (∀ job ch p2 ch2, ThreadPool.execute p job ch = Except.ok (p2, ch2) →
      p2.workers = p.workers) := by
  have h0 : 0 < N := hN
  simp only [ThreadPool.new, if_pos h0, Except.ok.injEq] at hp
  subst hp
  have hcomp : (Worker.id ∘ Worker.new) = id := by
    funext i
    rfl
  refine ⟨?_, ?_, ?_, ?_⟩
  · simp only [List.map_map]
    rw [hcomp, List.map_id]
  · simp only [List.map_map]
    rw [hcomp, List.map_id]
    exact List.nodup_range N
  · simp
  · intro job ch p2 ch2 h
    simp only [ThreadPool.execute, Channel.send] at h
    by_cases ha : ch.receiverAlive
    · simp only [if_pos ha, Except.map, Except.ok.injEq, Prod.mk.injEq] at h
      exact congrArg ThreadPool.workers h.1.symm
    · simp [if_neg ha, Except.map] at h

/-- Witness for C6 at the concrete size `1`. -/
theorem c6_fixed_worker_set_witness :
    (ThreadPool.mk [Worker.new 0]).workers.map Worker.id = List.range 1 ∧
    (ThreadPool.mk [Worker.new 0]).workers.length = 1 :=
  have h := c6_fixed_worker_set 1 { workers := [Worker.new 0] } (le_refl 1) rfl
  ⟨h.1, h.2.2.1⟩

/-- C4. Each worker-loop iteration dequeues exactly one message and
dispatches on its tag: `NewJob j` runs job `j` once and keeps looping with
unchanged behaviour on the remaining messages; `Terminate` exits the loop at
once, running nothing further; the loop consumes exactly one `Terminate`
when it terminates and none while it keeps running. -/
theorem c4_worker_dispatch (j : Nat) (ms : List Message) :
    workerBody (Message.NewJob j :: ms)
        = (j :: (workerBody ms).1, (workerBody ms).2) ∧
    workerBody (Message.Terminate :: ms) = ([], true) ∧
    (iterEvents (Message.NewJob j)).count IterEvent.recvMessage = 1 ∧
    (iterEvents Message.Terminate).count IterEvent.recvMessage = 1 ∧
    ((workerBody ms).2 = true →
      (consumedMessages ms).count Message.Terminate = 1) ∧
    ((workerBody ms).2 = false →
      (consumedMessages ms).count Message.Terminate = 0) := by
  refine ⟨rfl, rfl, by simp [iterEvents], by simp [iterEvents], ?_, ?_⟩
  · intro h
    simpa [h] using workerBody_terminate_count ms
  · intro h
    simpa [h] using workerBody_terminate_count ms

/-- Witness for C4 on the concrete message sequences `[NewJob 0, Terminate]`
and `[Terminate]`. -/
theorem c4_worker_dispatch_witness :
    workerBody [Message.NewJob 0, Message.Terminate] = ([0], true) ∧
    (consumedMessages [Message.Terminate]).count Message.Terminate = 1 :=
  have h := c4_worker_dispatch 0 [Message.Terminate]
  ⟨by rw [h.1]; rfl, h.2.2.2.2.1 rfl⟩


/-- C1. The destructor's event trace is two-phase: its first
`p.workers.length` events are exactly the `Terminate` sends (one per
worker), everything after them is a join, the trace contains exactly
`p.workers.length` sends in total, and positionally every join comes after
every send — no join is issued before the last `Terminate` is enqueued. -/
theorem c1_shutdown_two_phase (p : ThreadPool) :
    (dropEvents p).take p.workers.length
        = List.replicate p.workers.length DropEvent.sendTerminate ∧
    (∀ e ∈ (dropEvents p).drop p.workers.length, ∃ h, e = DropEvent.joinThread h) ∧
    (dropEvents p).count DropEvent.sendTerminate = p.workers.length ∧
    (∀ (i h : Nat), (dropEvents p)[i]? = some (DropEvent.joinThread h) →
      ∀ (j : Nat), (dropEvents p)[j]? = some DropEvent.sendTerminate → j < i) := by
  set N := p.workers.length with hN
  have hlen : (List.replicate N DropEvent.sendTerminate).length = N :=
    List.length_replicate N _
  refine ⟨?_, ?_, ?_, ?_⟩
  · rw [dropEvents, ← hN]
    exact take_replicate_append _ N _
  · intro e he
    rw [dropEvents, ← hN, drop_replicate_append] at he
    exact joinPhase_fst_isJoin p.workers e he
  · rw [dropEvents, ← hN, List.count_append, List.count_replicate]
    simp [List.count_eq_zero.mpr (sendTerminate_not_mem_joinPhase p.workers)]
  · intro i h hi j hj
    have hiN : N ≤ i := by
      by_contra hlt
      push_neg at hlt
      rw [dropEvents, ← hN, List.getElem?_append_left (by rw [hlen]; exact hlt),
        List.getElem?_replicate, if_pos hlt] at hi
      exact DropEvent.noConfusion (Option.some.inj hi)
    have hjN : j < N := by
      by_contra hge
      push_neg at hge
      rw [dropEvents, ← hN, List.getElem?_append_right (by rw [hlen]; exact hge)] at hj
      have hmem : DropEvent.sendTerminate ∈ (joinPhase p.workers).1 :=
        List.getElem?_mem hj
      exact sendTerminate_not_mem_joinPhase p.workers hmem
    omega

/-- Witness for C1 on a concrete one-worker pool: the trace is
`[sendTerminate, joinThread 0]`, and the join at position 1 is after the
send at position 0. -/
theorem c1_shutdown_two_phase_witness :
    (dropEvents { workers := [Worker.new 0] }).take 1
        = [DropEvent.sendTerminate] ∧
    (0 : Nat) < 1 :=
  have h := c1_shutdown_two_phase { workers := [Worker.new 0] }
  ⟨h.1, h.2.2.2 1 0 rfl 0 rfl⟩

/-- C7. Every worker's handle slot starts populated at construction; the
shutdown join loop empties every slot, emits one join per initially
populated slot (in worker order, skipping slots already `None`), and
running the join loop on already-emptied workers joins nothing — no handle
is ever joined twice. -/
theorem c7_take_once_handle (ws : List Worker) (id : Nat) :
    (Worker.new id).thread = some id ∧
    (∀ w ∈ (joinPhase ws).2, w.thread = none) ∧
    (joinPhase ws).1
        = ws.filterMap (fun w => w.thread.map DropEvent.joinThread) ∧
    (joinPhase (joinPhase ws).2).1 = [] := by
  refine ⟨rfl, joinPhase_snd_none ws, joinPhase_fst_eq_filterMap ws, ?_⟩
  rw [joinPhase_fst_eq_filterMap]
  rw [List.filterMap_eq_nil_iff]
  intro w hw
  rw [joinPhase_snd_none ws w hw]
  rfl

/-- Witness for C7 on a concrete two-worker list, one slot already empty. -/
theorem c7_take_once_handle_witness :
    (Worker.new 5).thread = some 5 ∧
    (Worker.mk 0 none).thread = none ∧
    (joinPhase (joinPhase [Worker.new 0, Worker.mk 1 none]).2).1 = [] :=
  have h := c7_take_once_handle [Worker.new 0, Worker.mk 1 none] 5
  ⟨h.1, h.2.1 (Worker.mk 0 none) (by simp [joinPhase, Worker.new]),
    h.2.2.2⟩

lemma lockHeld_runJob_false (m : Message) (i j : Nat)
    (h : (iterEvents m)[i]? = some (IterEvent.runJob j)) :
    lockHeldBefore (iterEvents m) i = false := by
  cases m with
  | NewJob k =>
      match i with
      | 0 => simp [iterEvents] at h
      | 1 => simp [iterEvents] at h
      | 2 => simp [iterEvents] at h
      | 3 => rfl
      | n + 4 => simp [iterEvents] at h
  | Terminate =>
      match i with
      | 0 => simp [iterEvents] at h
      | 1 => simp [iterEvents] at h
      | 2 => simp [iterEvents] at h
      | 3 => simp [iterEvents] at h
      | n + 4 => simp [iterEvents] at h

lemma lockHeld_recv_true (m : Message) (i : Nat)
    (h : (iterEvents m)[i]? = some IterEvent.recvMessage) :
    lockHeldBefore (iterEvents m) i = true := by
  cases m with
  | NewJob k =>
      match i with
      | 0 => simp [iterEvents] at h
      | 1 => rfl
      | 2 => simp [iterEvents] at h
      | 3 => simp [iterEvents] at h
      | n + 4 => simp [iterEvents] at h
  | Terminate =>
      match i with
      | 0 => simp [iterEvents] at h
      | 1 => rfl
      | 2 => simp [iterEvents] at h
      | 3 => simp [iterEvents] at h
      | n + 4 => simp [iterEvents] at h

/-- C9. A panicking job is not caught by the worker loop: the panic
propagates out of the thread function, aborting the loop (the remaining
messages are never processed and the worker's thread terminates); the job
runs with the consumer-handle lock already released, so the panic happens
outside the lock and a subsequent lock acquisition by another worker still
succeeds (the shared lock is not poisoned). -/
theorem c9_job_panic_not_caught (beh : Nat → Except Unit Unit) (j : Nat)
    (ms : List Message) (hpanic : beh j = Except.error ()) :
    workerRun beh (Message.NewJob j :: ms) = Except.error () ∧
    (∀ (i : Nat),
      (iterEvents (Message.NewJob j))[i]? = some (IterEvent.runJob j) →
      lockHeldBefore (iterEvents (Message.NewJob j)) i = false) ∧
    (∀ (i : Nat),
      (iterEvents (Message.NewJob j))[i]? = some (IterEvent.runJob j) →
      mutexLock (lockHeldBefore (iterEvents (Message.NewJob j)) i)
        = Except.ok ()) := by
  refine ⟨?_, ?_, ?_⟩
  · simp [workerRun, hpanic]
  · intro i h
    exact lockHeld_runJob_false _ i j h
  · intro i h
    rw [lockHeld_runJob_false _ i j h]
    rfl

/-- Witness for C9: a job that always panics, submitted as the only message. -/
theorem c9_job_panic_not_caught_witness :
    workerRun (fun _ => Except.error ()) [Message.NewJob 0] = Except.error () ∧
    mutexLock (lockHeldBefore (iterEvents (Message.NewJob 0)) 3)
      = Except.ok () :=
  have h := c9_job_panic_not_caught (fun _ => Except.error ()) 0 [] rfl
  ⟨h.1, h.2.2 3 rfl⟩

lemma perm_rotate {α : Type} (x y z : List α) :
    ((x ++ y) ++ z).Perm ((z ++ y) ++ x) := by
  refine (List.perm_append_comm).trans ?_
  refine (List.Perm.append_left z List.perm_append_comm).trans ?_
  rw [List.append_assoc]

lemma busyJobs_set (ps : List Phase) (i : Nat) (a b : Phase)
    (ha : ps[i]? = some a) :
    (busyJobs (ps.set i b) ++ phaseJobs a).Perm (busyJobs ps ++ phaseJobs b) := by
  induction ps generalizing i with
  | nil => simp at ha
  | cons c t ih =>
      cases i with
      | zero =>
          rw [List.getElem?_cons_zero, Option.some.injEq] at ha
          subst ha
          rw [List.set_cons_zero]
          simp only [busyJobs, List.flatMap_cons]
          exact perm_rotate _ _ _
      | succ n =>
          rw [List.getElem?_cons_succ] at ha
          rw [List.set_cons_succ]
          simp only [busyJobs, List.flatMap_cons, List.append_assoc]
          exact List.Perm.append_left _ (ih n ha)

lemma doneCount_set_not_done (ps : List Phase) (i : Nat) (b : Phase)
    (hi : i < ps.length) (hold : isDone ps[i] = false) (hnew : isDone b = false) :
    doneCount (ps.set i b) = doneCount ps := by
  rw [doneCount, doneCount, List.countP_set isDone ps i b hi, hold, hnew]
  simp

lemma doneCount_set_done (ps : List Phase) (i : Nat)
    (hi : i < ps.length) (hold : isDone ps[i] = false) :
    doneCount (ps.set i Phase.done) = doneCount ps + 1 := by
  rw [doneCount, doneCount, List.countP_set isDone ps i Phase.done hi, hold]
  simp [isDone]

lemma doneCount_replicate_ready (n : Nat) :
    doneCount (List.replicate n Phase.ready) = 0 := by
  rw [doneCount, List.countP_replicate]
  simp [isDone]

lemma poolInv_start (N M : Nat) : PoolInv N M (startState N M) := by
  refine ⟨0, Nat.zero_le M, ?_, ?_, ?_, ?_, ?_⟩
  · simp [startState, doneCount_replicate_ready]
  · simp [startState]
  · simp [startState, doneCount_replicate_ready]
  · intro h
    rw [startState] at h
    exact absurd (doneCount_replicate_ready N) h
  · have hb : busyJobs (List.replicate N Phase.ready) = [] := by
      rw [busyJobs, List.flatMap_eq_nil_iff]
      intro x hx
      rw [(List.mem_replicate.mp hx).2]
      rfl
    simp [startState, hb]

lemma poolInv_step {N M : Nat} {s s2 : PoolState}
    (hinv : PoolInv N M s) (hstep : PoolStep s s2) : PoolInv N M s2 := by
  obtain ⟨k, hkM, hq, hlen, hdN, himp, hperm⟩ := hinv
  cases hstep with
  | dequeueJob i j rest hready hqueue =>
      obtain ⟨hilen, hgi⟩ := List.getElem?_eq_some_iff.mp hready
      rw [hq] at hqueue
      cases hdk : (List.range M).drop k with
      | nil =>
          rw [hdk, List.map_nil, List.nil_append] at hqueue
          cases hNd : N - doneCount s.phases with
          | zero => rw [hNd] at hqueue; simp at hqueue
          | succ m => rw [hNd, List.replicate_succ] at hqueue; simp at hqueue
      | cons x xs =>
          have hkM2 : k < M := by
            by_contra hge
            push_neg at hge
            rw [List.drop_eq_nil_of_le (by simpa using hge)] at hdk
            exact List.noConfusion hdk
          have hdrop : (List.range M).drop k = k :: (List.range M).drop (k + 1) := by
            rw [List.drop_eq_getElem_cons (by simpa using hkM2)]
            rw [List.getElem_range]
          rw [hdrop, List.map_cons, List.cons_append] at hqueue
          injection hqueue with hjk hrest
          have hjk2 : j = k := (Message.NewJob.inj hjk).symm
          have hd2 : doneCount (s.phases.set i (Phase.busy j)) = doneCount s.phases :=
            doneCount_set_not_done s.phases i (Phase.busy j) hilen
              (by rw [hgi]; rfl) rfl
          have hd0 : doneCount s.phases = 0 := by
            by_contra hne
            exact absurd (himp hne) (by omega)
          have hq2 : rest = ((List.range M).drop (k + 1)).map Message.NewJob
              ++ List.replicate (N - doneCount (s.phases.set i (Phase.busy j)))
                Message.Terminate := by
            rw [hd2]
            exact hrest.symm
          have hlen2 : (s.phases.set i (Phase.busy j)).length = N := by
            simpa using hlen
          have hdN2 : doneCount (s.phases.set i (Phase.busy j)) ≤ N := by
            rw [hd2]
            exact hdN
          have himp2 : doneCount (s.phases.set i (Phase.busy j)) ≠ 0 → k + 1 = M := by
            intro hne
            rw [hd2, hd0] at hne
            exact absurd rfl hne
          have hperm2 : (s.executed ++ busyJobs (s.phases.set i (Phase.busy j))).Perm
              (List.range (k + 1)) := by
            have hbs := busyJobs_set s.phases i Phase.ready (Phase.busy j) hready
            simp only [phaseJobs, List.append_nil] at hbs
            rw [List.range_succ]
            refine (List.Perm.append_left s.executed hbs).trans ?_
            rw [← List.append_assoc, hjk2]
            exact List.Perm.append_right [k] hperm
          exact ⟨k + 1, by omega, hq2, hlen2, hdN2, himp2, hperm2⟩
  | finishJob i j hbusy =>
      obtain ⟨hilen, hgi⟩ := List.getElem?_eq_some_iff.mp hbusy
      have hd2 : doneCount (s.phases.set i Phase.ready) = doneCount s.phases :=
        doneCount_set_not_done s.phases i Phase.ready hilen (by rw [hgi]; rfl) rfl
      have hq2 : s.queue = ((List.range M).drop k).map Message.NewJob
          ++ List.replicate (N - doneCount (s.phases.set i Phase.ready))
            Message.Terminate := by
        rw [hd2]
        exact hq
      have hlen2 : (s.phases.set i Phase.ready).length = N := by
        simpa using hlen
      have hdN2 : doneCount (s.phases.set i Phase.ready) ≤ N := by
        rw [hd2]
        exact hdN
      have himp2 : doneCount (s.phases.set i Phase.ready) ≠ 0 → k = M := by
        intro hne
        rw [hd2] at hne
        exact himp hne
      have hperm2 : ((s.executed ++ [j]) ++ busyJobs (s.phases.set i Phase.ready)).Perm
          (List.range k) := by
        have hbs := busyJobs_set s.phases i (Phase.busy j) Phase.ready hbusy
        simp only [phaseJobs, List.append_nil] at hbs
        rw [List.append_assoc]
        refine (List.Perm.append_left s.executed ?_).trans hperm
        exact (List.perm_append_comm).trans hbs
      exact ⟨k, hkM, hq2, hlen2, hdN2, himp2, hperm2⟩
  | dequeueTerm i rest hready hqueue =>
      obtain ⟨hilen, hgi⟩ := List.getElem?_eq_some_iff.mp hready
      rw [hq] at hqueue
      cases hdk : (List.range M).drop k with
      | cons x xs =>
          rw [hdk, List.map_cons, List.cons_append] at hqueue
          exact Message.noConfusion (List.head_eq_of_cons_eq hqueue)
      | nil =>
          have hkMeq : k = M := by
            have hlenM : M ≤ k := by
              have hcong := congrArg List.length hdk
              simp at hcong
              omega
            omega
          rw [hdk, List.map_nil, List.nil_append] at hqueue
          cases hNd : N - doneCount s.phases with
          | zero => rw [hNd] at hqueue; simp at hqueue
          | succ m =>
              rw [hNd, List.replicate_succ] at hqueue
              injection hqueue with _ hrest
              have hd2 : doneCount (s.phases.set i Phase.done)
                  = doneCount s.phases + 1 :=
                doneCount_set_done s.phases i hilen (by rw [hgi]; rfl)
              have hq2 : rest = ((List.range M).drop k).map Message.NewJob
                  ++ List.replicate (N - doneCount (s.phases.set i Phase.done))
                    Message.Terminate := by
                rw [hd2, hdk, List.map_nil, List.nil_append, ← hrest]
                congr 1
                omega
              have hlen2 : (s.phases.set i Phase.done).length = N := by
                simpa using hlen
              have hdN2 : doneCount (s.phases.set i Phase.done) ≤ N := by
                rw [hd2]
                omega
              have himp2 : doneCount (s.phases.set i Phase.done) ≠ 0 → k = M :=
                fun _ => hkMeq
              have hperm2 : (s.executed ++ busyJobs (s.phases.set i Phase.done)).Perm
                  (List.range k) := by
                have hbs := busyJobs_set s.phases i Phase.ready Phase.done hready
                simp only [phaseJobs, List.append_nil] at hbs
                exact (List.Perm.append_left s.executed hbs).trans hperm
              exact ⟨k, hkM, hq2, hlen2, hdN2, himp2, hperm2⟩

lemma poolInv_reaches {N M : Nat} {s s2 : PoolState}
    (hinv : PoolInv N M s) (h : Reaches s s2) : PoolInv N M s2 := by
  induction h with
  | refl => exact hinv
  | tail _ hstep ih => exact poolInv_step ih hstep

/-- C2. Exactly-once execution: for every pool size `N ≥ 1` and every number
`M` of submitted jobs, in any interleaved execution that starts from the
post-shutdown-send state and ends with every worker terminated (which is
the state the destructor's joins wait for), the multiset of executed jobs
is exactly the `M` submitted jobs — each submitted job ran exactly once,
and nothing else ran. -/
theorem c2_exactly_once (N M : Nat) (s : PoolState) (hN : 1 ≤ N)
    (hreach : Reaches (startState N M) s)
    (hdone : ∀ p ∈ s.phases, p = Phase.done) :
    s.executed.Perm (List.range M) ∧
    s.executed.length = M ∧
    (∀ j, j < M → s.executed.count j = 1) ∧
    (∀ j, M ≤ j → s.executed.count j = 0) := by
  obtain ⟨k, hkM, hq, hlen, hdN, himp, hperm⟩ :=
    poolInv_reaches (poolInv_start N M) hreach
  have hd : doneCount s.phases = N := by
    rw [doneCount, ← hlen, List.countP_eq_length]
    intro a ha
    rw [hdone a ha]
    rfl
  have hkMeq : k = M := himp (by omega)
  have hbusy : busyJobs s.phases = [] := by
    rw [busyJobs, List.flatMap_eq_nil_iff]
    intro x hx
    rw [hdone x hx]
    rfl
  have hperm2 : s.executed.Perm (List.range M) := by
    rw [hbusy, List.append_nil, hkMeq] at hperm
    exact hperm
  refine ⟨hperm2, ?_, ?_, ?_⟩
  · rw [hperm2.length_eq, List.length_range]
  · intro j hj
    rw [hperm2.count_eq]
    exact List.count_eq_one_of_mem (List.nodup_range M) (List.mem_range.mpr hj)
  · intro j hj
    rw [hperm2.count_eq]
    refine List.count_eq_zero_of_not_mem ?_
    rw [List.mem_range]
    omega

/-- Witness for C2: one worker, one job; the concrete execution dequeues the
job, runs it, then dequeues the `Terminate`, and the executed multiset is
exactly the one job. -/
theorem c2_exactly_once_witness :
    (PoolState.mk [] [Phase.done] [0]).executed.Perm (List.range 1) ∧
    (PoolState.mk [] [Phase.done] [0]).executed.count 0 = 1 := by
  have h1 : PoolStep (startState 1 1)
      (PoolState.mk [Message.Terminate] [Phase.busy 0] []) :=
    PoolStep.dequeueJob _ 0 0 [Message.Terminate] rfl rfl
  have h2 : PoolStep (PoolState.mk [Message.Terminate] [Phase.busy 0] [])
      (PoolState.mk [Message.Terminate] [Phase.ready] [0]) :=
    PoolStep.finishJob _ 0 0 rfl
  have h3 : PoolStep (PoolState.mk [Message.Terminate] [Phase.ready] [0])
      (PoolState.mk [] [Phase.done] [0]) :=
    PoolStep.dequeueTerm _ 0 [] rfl rfl
  have hreach : Reaches (startState 1 1) (PoolState.mk [] [Phase.done] [0]) :=
    Relation.ReflTransGen.head h1
      (Relation.ReflTransGen.head h2 (Relation.ReflTransGen.single h3))
  have h := c2_exactly_once 1 1 (PoolState.mk [] [Phase.done] [0])
    (le_refl 1) hreach (by intro p hp; simpa using hp)
  exact ⟨h.1, h.2.2.1 0 (by omega)⟩


lemma reaches_allBusy (N : Nat) : ∀ k, k ≤ N →
    Reaches (startState N N)
      (PoolState.mk
        (((List.range N).drop k).map Message.NewJob
          ++ List.replicate N Message.Terminate)
        ((List.range k).map Phase.busy ++ List.replicate (N - k) Phase.ready)
        []) := by
  intro k
  induction k with
  | zero =>
      intro _
      have he : (PoolState.mk
          (((List.range N).drop 0).map Message.NewJob
            ++ List.replicate N Message.Terminate)
          ((List.range 0).map Phase.busy ++ List.replicate (N - 0) Phase.ready)
          []) = startState N N := by
        simp [startState]
      rw [he]
      exact Relation.ReflTransGen.refl
  | succ k ih =>
      intro hk
      have hkN : k < N := hk
      refine Relation.ReflTransGen.tail (ih (le_of_lt hkN)) ?_
      have hlenb : ((List.range k).map Phase.busy).length = k := by simp
      have hready : ((List.range k).map Phase.busy
          ++ List.replicate (N - k) Phase.ready)[k]? = some Phase.ready := by
        rw [List.getElem?_append_right (by rw [hlenb])]
        rw [hlenb, Nat.sub_self, List.getElem?_replicate]
        rw [if_pos (by omega)]
      have hqueue : ((List.range N).drop k).map Message.NewJob
          ++ List.replicate N Message.Terminate
          = Message.NewJob k :: (((List.range N).drop (k + 1)).map Message.NewJob
            ++ List.replicate N Message.Terminate) := by
        rw [List.drop_eq_getElem_cons (by simpa using hkN), List.getElem_range]
        rfl
      have hstep := PoolStep.dequeueJob
        (PoolState.mk
          (((List.range N).drop k).map Message.NewJob
            ++ List.replicate N Message.Terminate)
          ((List.range k).map Phase.busy ++ List.replicate (N - k) Phase.ready)
          []) k k
        (((List.range N).drop (k + 1)).map Message.NewJob
          ++ List.replicate N Message.Terminate) hready hqueue
      have hphase : (((List.range k).map Phase.busy
            ++ List.replicate (N - k) Phase.ready).set k (Phase.busy k))
          = (List.range (k + 1)).map Phase.busy
            ++ List.replicate (N - (k + 1)) Phase.ready := by
        rw [List.set_append, if_neg (by rw [hlenb]; omega), hlenb, Nat.sub_self]
        rw [show N - k = (N - (k + 1)) + 1 by omega, List.replicate_succ]
        rw [List.set_cons_zero, List.range_succ, List.map_append]
        simp
      rw [hphase] at hstep
      exact hstep

/-- C8. The consumer-handle lock is held only across the dequeue: in every
loop iteration the lock is held while the message is received and already
released by the time a job runs, and consequently a pool of `N` workers can
have all `N` workers simultaneously executing jobs — a state in which every
worker is `busy` is reachable. -/
theorem c8_lock_released_before_job :
    (∀ (m : Message) (i j : Nat),
        (iterEvents m)[i]? = some (IterEvent.runJob j) →
        lockHeldBefore (iterEvents m) i = false) ∧
    (∀ (m : Message) (i : Nat),
        (iterEvents m)[i]? = some IterEvent.recvMessage →
        lockHeldBefore (iterEvents m) i = true) ∧
    (∀ N : Nat, ∃ s : PoolState, Reaches (startState N N) s ∧
        s.phases.length = N ∧ ∀ p ∈ s.phases, ∃ j, p = Phase.busy j) := by
  refine ⟨fun m i j h => lockHeld_runJob_false m i j h,
    fun m i h => lockHeld_recv_true m i h, ?_⟩
  intro N
  refine ⟨PoolState.mk (List.replicate N Message.Terminate)
      ((List.range N).map Phase.busy) [], ?_, ?_, ?_⟩
  · have h := reaches_allBusy N N (le_refl N)
    have hq : ((List.range N).drop N).map Message.NewJob
        ++ List.replicate N Message.Terminate
        = List.replicate N Message.Terminate := by
      rw [List.drop_eq_nil_of_le (by simp)]
      rfl
    have hp : (List.range N).map Phase.busy ++ List.replicate (N - N) Phase.ready
        = (List.range N).map Phase.busy := by
      rw [Nat.sub_self]
      simp
    rw [hq, hp] at h
    exact h
  · simp
  · intro p hp
    rw [List.mem_map] at hp
    obtain ⟨a, _, hpa⟩ := hp
    exact ⟨a, hpa.symm⟩

/-- Witness for C8 at the concrete iteration trace of `NewJob 0`: the lock
is released at the job-run position 3 and held at the receive position 1. -/
theorem c8_lock_released_before_job_witness :
    lockHeldBefore (iterEvents (Message.NewJob 0)) 3 = false ∧
    lockHeldBefore (iterEvents (Message.NewJob 0)) 1 = true :=
  ⟨c8_lock_released_before_job.1 (Message.NewJob 0) 3 0 rfl,
   c8_lock_released_before_job.2.1 (Message.NewJob 0) 1 rfl⟩

lemma startsWith_padded (bytesRead : List Nat) (hlen : bytesRead.length ≤ 1024) :
    bytesStartWith (bytesRead ++ List.replicate (1024 - bytesRead.length) 0)
        getRequestLine
      = bytesStartWith bytesRead getRequestLine := by
  have hG : getRequestLine.length = 16 := rfl
  by_cases h16 : 16 ≤ bytesRead.length
  · unfold bytesStartWith
    rw [hG, List.take_append_eq_append_take,
      show (16 : Nat) - bytesRead.length = 0 by omega, List.take_zero,
      List.append_nil]
  · push_neg at h16
    have hlhs : (bytesRead
        ++ List.replicate (1024 - bytesRead.length) 0).take 16
        ≠ getRequestLine := by
      intro hEq
      have h15 := congrArg (fun l => l[15]?) hEq
      simp only [List.getElem?_take, if_pos (by omega : (15 : Nat) < 16)] at h15
      rw [List.getElem?_append_right (by omega : bytesRead.length ≤ 15),
        List.getElem?_replicate, if_pos (by omega)] at h15
      have hG15 : getRequestLine[15]? = some 10 := rfl
      rw [hG15] at h15
      exact absurd (Option.some.inj h15) (by omega)
    have hrhs : bytesRead.take 16 ≠ getRequestLine := by
      intro hEq
      have hL := congrArg List.length hEq
      rw [List.length_take, hG, Nat.min_eq_right (Nat.le_of_lt h16)] at hL
      omega
    unfold bytesStartWith
    rw [hG, decide_eq_false hlhs, decide_eq_false hrhs]

/-- C10. `handle_connection` reads at most 1024 bytes into a
zero-initialised buffer and decides by an exact prefix test on the bytes
read: it answers `HTTP/1.1 200 OK` with the `hello.html` body precisely
when the request starts with `GET / HTTP/1.1\r\n`, and
`HTTP/1.1 404 NOT FOUND` with the `404.html` body otherwise, in both cases
with `Content-Length` equal to the body's length. -/
theorem c10_connection_dispatch (bytesRead : List Nat) (hello nf : String)
    (hlen : bytesRead.length ≤ 1024) :
    (bytesStartWith bytesRead getRequestLine = true →
      handle_connection bytesRead hello nf =
        "HTTP/1.1 200 OK" ++ "\r\nContent-Length: " ++ toString hello.length
          ++ "\r\n\r\n" ++ hello) ∧
    (bytesStartWith bytesRead getRequestLine = false →
      handle_connection bytesRead hello nf =
        "HTTP/1.1 404 NOT FOUND" ++ "\r\nContent-Length: "
          ++ toString nf.length ++ "\r\n\r\n" ++ nf) := by
  constructor <;> intro h <;>
    simp only [handle_connection, startsWith_padded bytesRead hlen, h] <;>
    rfl

/-- Witness for C10: the exact request line yields the 200 response; a
different method yields the 404 response. -/
theorem c10_connection_dispatch_witness :
    handle_connection getRequestLine "hello" "nf" =
      "HTTP/1.1 200 OK" ++ "\r\nContent-Length: "
        ++ toString ("hello" : String).length ++ "\r\n\r\n" ++ "hello" ∧
    handle_connection [80] "hello" "nf" =
      "HTTP/1.1 404 NOT FOUND" ++ "\r\nContent-Length: "
        ++ toString ("nf" : String).length ++ "\r\n\r\n" ++ "nf" :=
  ⟨(c10_connection_dispatch getRequestLine "hello" "nf" (by decide)).1 (by decide),
   (c10_connection_dispatch [80] "hello" "nf" (by decide)).2 (by decide)⟩

end WebserverExample
